import Mathlib

/-!
# Verification of the dish-dispatcher shelf/order allocation engine

A shallow embedding of the Go core (`internal/order/order.go`,
`internal/shelves/shelf.go`, `internal/shelves/manager.go`) together with
theorems settling the specification claims.

Modelling conventions:
* `time.Time` values are rationals (seconds); the Go zero-value sentinel
  (`IsZero`) is modelled by `Option ℚ` (`none` = unset).
* `float64` quantities (shelf life, decay rate, values) are rationals.
* Go maps from order id to order are association lists with the Go map
  update semantics (`mapInsert` replaces in place when the key is present).
* Pointer mutation of an `Order` is modelled by returning the updated
  order value alongside the updated container; the aliasing between a
  shelf's stored pointer and the caller's pointer is made explicit where
  the Go code relies on it (the manager's overflow-timestamp assignment).
* Each operation takes the wall-clock instant `now : ℚ` as a parameter in
  place of its internal `time.Now()` call.
-/

namespace DishDispatcher

/-- An order (struct `Order` in order.go).  Identity and decay attributes
plus the runtime tracking fields. -/
structure Order where
  id : String
  name : String
  temp : String
  shelfLife : ℚ
  decayRate : ℚ
  createdAt : ℚ
  placedOnShelfAt : Option ℚ := none
  placedOnOverflow : Option ℚ := none
  currentShelfType : String := ""
  wastedAt : Option ℚ := none
  deliveredAt : Option ℚ := none
deriving DecidableEq, Repr

/-- `Order.CalculateValue` from order.go: single-rate segmented decay.
Value is 1 before placement; decay accrues at `decayRate` per second both
on the primary segment and on the overflow segment; the result clamps at
0 once the remaining shelf life is nonpositive. -/
def Order.CalculateValue (o : Order) (now : ℚ) : ℚ :=
  match o.placedOnShelfAt with
  | none => 1
  | some placed =>
    let decayAmount : ℚ :=
      match o.placedOnOverflow with
      | none => o.decayRate * (now - placed)
      | some ov => o.decayRate * (ov - placed) + o.decayRate * (now - ov)
    let remainingShelfLife := o.shelfLife - decayAmount
    if remainingShelfLife ≤ 0 then 0 else remainingShelfLife / o.shelfLife

/-- `Order.CalculateValueV2` from order.go: the divergent variant.  It
subtracts the raw order age from the shelf life in addition to the decay
amount, and doubles the decay rate once the order has touched overflow. -/
def Order.CalculateValueV2 (o : Order) (now : ℚ) : ℚ :=
  match o.placedOnShelfAt with
  | none => 1
  | some placed =>
    let orderAge : ℚ :=
      match o.placedOnOverflow with
      | none => now - placed
      | some ov => (ov - placed) + (now - ov)
    let shelfDecayModifier : ℚ :=
      match o.placedOnOverflow with
      | none => 1
      | some _ => 2
    let decayAmount := o.decayRate * orderAge * shelfDecayModifier
    let remainingShelfLife := o.shelfLife - orderAge - decayAmount
    if remainingShelfLife ≤ 0 then 0 else remainingShelfLife / o.shelfLife

/-- `Order.IsExpired` from order.go. -/
def Order.IsExpired (o : Order) (now : ℚ) : Bool :=
  o.CalculateValue now ≤ 0

/-- Go map lookup on an association list. -/
def mapGet (l : List (String × Order)) (k : String) : Option Order :=
  match l with
  | [] => none
  | (k1, v) :: rest => if k1 = k then some v else mapGet rest k

/-- Go map update `m[k] = v`: replaces in place when `k` is present,
appends otherwise (so the resident count grows only on a fresh key). -/
def mapInsert (l : List (String × Order)) (k : String) (v : Order) :
    List (String × Order) :=
  match l with
  | [] => [(k, v)]
  | (k1, v1) :: rest =>
    if k1 = k then (k, v) :: rest else (k1, v1) :: mapInsert rest k v

/-- Go map delete `delete(m, k)`. -/
def mapErase (l : List (String × Order)) (k : String) :
    List (String × Order) :=
  match l with
  | [] => []
  | (k1, v1) :: rest =>
    if k1 = k then rest else (k1, v1) :: mapErase rest k

/-- `ShelfStats` from shelf.go. -/
structure ShelfStats where
  ordersAdded : ℕ
  ordersRemoved : ℕ
  ordersWasted : ℕ
  ordersDelivered : ℕ
  peakUsage : ℕ
deriving DecidableEq, Repr

/-- `Shelf` from shelf.go.  The mutex is concurrency glue with no pure
content; `Orders` is the association list with Go map semantics. -/
structure Shelf where
  type : String
  capacity : ℤ
  stats : ShelfStats
  orders : List (String × Order)
deriving DecidableEq, Repr

/-- `NewShelf` from shelf.go. -/
def NewShelf (shelfType : String) (capacity : ℤ) : Shelf :=
  { type := shelfType, capacity := capacity,
    stats := { ordersAdded := 0, ordersRemoved := 0, ordersWasted := 0,
               ordersDelivered := 0, peakUsage := 0 },
    orders := [] }

/-- The order-field mutations `AddOrder` performs before inserting:
sets the primary placement time when unset, sets the current zone label,
and on the overflow shelf sets the overflow placement time when unset. -/
def stampOrder (s : Shelf) (o : Order) (now : ℚ) : Order :=
  let o1 := match o.placedOnShelfAt with
    | none => { o with placedOnShelfAt := some now }
    | some _ => o
  let o2 := { o1 with currentShelfType := s.type }
  if s.type = "overflow" then
    match o2.placedOnOverflow with
    | none => { o2 with placedOnOverflow := some now }
    | some _ => o2
  else o2

/-- `Shelf.AddOrder` from shelf.go: fails with no mutation at capacity;
otherwise stamps the order, stores it under its id, and bumps the added
and peak-usage statistics. -/
def Shelf.AddOrder (s : Shelf) (o : Order) (now : ℚ) :
    Bool × Shelf × Order :=
  if (s.orders.length : ℤ) ≥ s.capacity then (false, s, o)
  else
    let o3 := stampOrder s o now
    let newOrders := mapInsert s.orders o3.id o3
    (true,
     { s with
       orders := newOrders,
       stats := { s.stats with
         ordersAdded := s.stats.ordersAdded + 1,
         peakUsage := if newOrders.length > s.stats.peakUsage
           then newOrders.length else s.stats.peakUsage } },
     o3)

/-- `Shelf.RemoveOrder` from shelf.go. -/
def Shelf.RemoveOrder (s : Shelf) (orderID : String) :
    Option Order × Shelf :=
  match mapGet s.orders orderID with
  | none => (none, s)
  | some o =>
    (some o,
     { s with
       orders := mapErase s.orders orderID,
       stats := { s.stats with
         ordersRemoved := s.stats.ordersRemoved + 1 } })

/-- `Shelf.MarkOrderDelivered` from shelf.go: removes the order, stamps
its delivery time, bumps delivered and removed statistics. -/
def Shelf.MarkOrderDelivered (s : Shelf) (orderID : String) (now : ℚ) :
    Bool × Shelf × Option Order :=
  match mapGet s.orders orderID with
  | none => (false, s, none)
  | some o =>
    (true,
     { s with
       orders := mapErase s.orders orderID,
       stats := { s.stats with
         ordersRemoved := s.stats.ordersRemoved + 1,
         ordersDelivered := s.stats.ordersDelivered + 1 } },
     some { o with deliveredAt := some now })

/-- `Shelf.RemoveExpiredOrders` from shelf.go: deletes every expired
resident, stamps its wasted time, bumps the wasted statistic by the count,
and returns the count (and the stamped removed orders, which in Go are
mutated through their pointers). -/
def Shelf.RemoveExpiredOrders (s : Shelf) (now : ℚ) :
    ℕ × Shelf × List Order :=
  let expired := s.orders.filter (fun kv => kv.2.IsExpired now)
  let kept := s.orders.filter (fun kv => !(kv.2.IsExpired now))
  (expired.length,
   { s with
     orders := kept,
     stats := { s.stats with
       ordersWasted := s.stats.ordersWasted + expired.length } },
   expired.map (fun kv => { kv.2 with wastedAt := some now }))

/-- `Shelf.Size` from shelf.go. -/
def Shelf.Size (s : Shelf) : ℕ :=
  s.orders.length

/-- `Shelf.IsFull` from shelf.go. -/
def Shelf.IsFull (s : Shelf) : Bool :=
  (s.orders.length : ℤ) ≥ s.capacity

/-- `ShelfManager` from manager.go: the four shelves and the aggregate
counters. -/
structure ShelfManager where
  hotShelf : Shelf
  coldShelf : Shelf
  frozenShelf : Shelf
  overflowShelf : Shelf
  totalOrdersReceived : ℕ
  totalOrdersDelivered : ℕ
  totalOrdersExpired : ℕ
  totalOrdersWasted : ℕ
deriving DecidableEq, Repr

/-- `NewShelfManager` from manager.go. -/
def NewShelfManager (hotCapacity coldCapacity frozenCapacity
    overflowCapacity : ℤ) : ShelfManager :=
  { hotShelf := NewShelf "hot" hotCapacity,
    coldShelf := NewShelf "cold" coldCapacity,
    frozenShelf := NewShelf "frozen" frozenCapacity,
    overflowShelf := NewShelf "overflow" overflowCapacity,
    totalOrdersReceived := 0, totalOrdersDelivered := 0,
    totalOrdersExpired := 0, totalOrdersWasted := 0 }

/-- Which primary shelf a temperature class selects (the non-nil results
of `GetShelfForTemperature` in manager.go). -/
inductive ShelfSlot where
  | hot
  | cold
  | frozen
deriving DecidableEq, Repr

/-- `GetShelfForTemperature` from manager.go: `none` models the Go `nil`
result for an unrecognized temperature class. -/
def GetShelfForTemperature (temp : String) : Option ShelfSlot :=
  if temp = "hot" then some ShelfSlot.hot
  else if temp = "cold" then some ShelfSlot.cold
  else if temp = "frozen" then some ShelfSlot.frozen
  else none

/-- Read the shelf a slot denotes. -/
def ShelfManager.getSlot (sm : ShelfManager) : ShelfSlot → Shelf
  | ShelfSlot.hot => sm.hotShelf
  | ShelfSlot.cold => sm.coldShelf
  | ShelfSlot.frozen => sm.frozenShelf

/-- Replace the shelf a slot denotes. -/
def ShelfManager.setSlot (sm : ShelfManager) (slot : ShelfSlot)
    (s : Shelf) : ShelfManager :=
  match slot with
  | ShelfSlot.hot => { sm with hotShelf := s }
  | ShelfSlot.cold => { sm with coldShelf := s }
  | ShelfSlot.frozen => { sm with frozenShelf := s }

/-- `ShelfManager.PlaceOrder` from manager.go.  On the overflow-success
path the Go code performs `order.PlacedOnOverflow = time.Now()`
unconditionally; since the shelf stores the same pointer, that write is
visible both in the returned order and in the overflow shelf's entry,
which the model makes explicit by re-inserting the updated order. -/
def ShelfManager.PlaceOrder (sm : ShelfManager) (o : Order) (now : ℚ) :
    Bool × ShelfManager × Order :=
  let sm1 := { sm with
    totalOrdersReceived := sm.totalOrdersReceived + 1 }
  match GetShelfForTemperature o.temp with
  | none =>
    (false,
     { sm1 with totalOrdersWasted := sm1.totalOrdersWasted + 1 }, o)
  | some slot =>
    let r := (sm1.getSlot slot).AddOrder o now
    if r.1 then (true, sm1.setSlot slot r.2.1, r.2.2)
    else
      let r2 := sm1.overflowShelf.AddOrder o now
      if r2.1 then
        let o2 := { r2.2.2 with placedOnOverflow := some now }
        (true,
         { sm1 with overflowShelf :=
             { r2.2.1 with
               orders := mapInsert r2.2.1.orders o2.id o2 } },
         o2)
      else
        (false,
         { sm1 with totalOrdersWasted := sm1.totalOrdersWasted + 1 },
         { o with wastedAt := some now })

/-- `deliverFromShelf` from manager.go: look the id up, then delegate to
the shelf's `MarkOrderDelivered`. -/
def deliverFromShelf (s : Shelf) (orderID : String) (now : ℚ) :
    Bool × Shelf × Option Order :=
  match mapGet s.orders orderID with
  | none => (false, s, none)
  | some _ => s.MarkOrderDelivered orderID now

/-- `ShelfManager.DeliverOrder` from manager.go: tries hot, cold, frozen,
overflow in that order (Go short-circuit disjunction) and increments the
delivered counter on the first success. -/
def ShelfManager.DeliverOrder (sm : ShelfManager) (orderID : String)
    (now : ℚ) : Bool × ShelfManager × Option Order :=
  let r1 := deliverFromShelf sm.hotShelf orderID now
  if r1.1 then
    (true, { sm with
      hotShelf := r1.2.1,
      totalOrdersDelivered := sm.totalOrdersDelivered + 1 }, r1.2.2)
  else
    let r2 := deliverFromShelf sm.coldShelf orderID now
    if r2.1 then
      (true, { sm with
        coldShelf := r2.2.1,
        totalOrdersDelivered := sm.totalOrdersDelivered + 1 }, r2.2.2)
    else
      let r3 := deliverFromShelf sm.frozenShelf orderID now
      if r3.1 then
        (true, { sm with
          frozenShelf := r3.2.1,
          totalOrdersDelivered := sm.totalOrdersDelivered + 1 }, r3.2.2)
      else
        let r4 := deliverFromShelf sm.overflowShelf orderID now
        if r4.1 then
          (true, { sm with
            overflowShelf := r4.2.1,
            totalOrdersDelivered := sm.totalOrdersDelivered + 1 }, r4.2.2)
        else (false, sm, none)

/-- `ShelfManager.RemoveExpiredOrders` from shelf.go: sweeps the four
shelves and adds the summed count to the expired counter.  The Go code
takes a fresh `time.Now()` per shelf; the model uses a single shared
snapshot, which the spec explicitly allows. -/
def ShelfManager.RemoveExpiredOrders (sm : ShelfManager) (now : ℚ) :
    ℕ × ShelfManager × List Order :=
  let rh := sm.hotShelf.RemoveExpiredOrders now
  let rc := sm.coldShelf.RemoveExpiredOrders now
  let rf := sm.frozenShelf.RemoveExpiredOrders now
  let ro := sm.overflowShelf.RemoveExpiredOrders now
  let total := rh.1 + rc.1 + rf.1 + ro.1
  (total,
   { sm with
     hotShelf := rh.2.1,
     coldShelf := rc.2.1,
     frozenShelf := rf.2.1,
     overflowShelf := ro.2.1,
     totalOrdersExpired := sm.totalOrdersExpired + total },
   rh.2.2 ++ rc.2.2 ++ rf.2.2 ++ ro.2.2)

/-- Total resident orders across the four shelves. -/
def ShelfManager.occupancy (sm : ShelfManager) : ℕ :=
  sm.hotShelf.orders.length + sm.coldShelf.orders.length +
    sm.frozenShelf.orders.length + sm.overflowShelf.orders.length

/-- The manager's reconciliation equation from the spec. -/
def Reconciled (sm : ShelfManager) : Prop :=
  sm.totalOrdersReceived =
    sm.totalOrdersDelivered + sm.totalOrdersWasted +
      sm.totalOrdersExpired + sm.occupancy

/-- Whether an id is resident on any of the four shelves. -/
def residentAnywhere (sm : ShelfManager) (k : String) : Bool :=
  (mapGet sm.hotShelf.orders k).isSome ||
  (mapGet sm.coldShelf.orders k).isSome ||
  (mapGet sm.frozenShelf.orders k).isSome ||
  (mapGet sm.overflowShelf.orders k).isSome

/-- A completed manager operation. -/
inductive MgrOp where
  | place (o : Order) (now : ℚ)
  | deliver (orderID : String) (now : ℚ)
  | sweep (now : ℚ)

/-- State reached after one manager operation. -/
def runOp (sm : ShelfManager) : MgrOp → ShelfManager
  | MgrOp.place o now => (sm.PlaceOrder o now).2.1
  | MgrOp.deliver orderID now => (sm.DeliverOrder orderID now).2.1
  | MgrOp.sweep now => (sm.RemoveExpiredOrders now).2.1

/-- State reached after a sequence of manager operations. -/
def runOps (sm : ShelfManager) : List MgrOp → ShelfManager
  | [] => sm
  | op :: rest => runOps (runOp sm op) rest

/-- Side condition on one operation: a placed order carries an id not
currently resident anywhere (guaranteed by `NewOrder` id uniqueness and
the spec's residency invariant). -/
def FreshOk (sm : ShelfManager) : MgrOp → Prop
  | MgrOp.place o _ => residentAnywhere sm o.id = false
  | MgrOp.deliver _ _ => True
  | MgrOp.sweep _ => True

/-- A sequence of operations each of which satisfies `FreshOk` in the
state where it runs. -/
def Admissible : ShelfManager → List MgrOp → Prop
  | _, [] => True
  | sm, op :: rest => FreshOk sm op ∧ Admissible (runOp sm op) rest

/-- Run consecutive `AddOrder` calls on one shelf, collecting results. -/
def addAll (s : Shelf) (os : List Order) (now : ℚ) : Shelf × List Bool :=
  match os with
  | [] => (s, [])
  | o :: rest =>
    let r := s.AddOrder o now
    let r2 := addAll r.2.1 rest now
    (r2.1, r.1 :: r2.2)

/-- A shelf-level operation. -/
inductive ShOp where
  | add (o : Order) (now : ℚ)
  | remove (orderID : String)
  | deliver (orderID : String) (now : ℚ)
  | sweep (now : ℚ)

/-- State reached after one shelf operation. -/
def runShOp (s : Shelf) : ShOp → Shelf
  | ShOp.add o now => (s.AddOrder o now).2.1
  | ShOp.remove orderID => (s.RemoveOrder orderID).2
  | ShOp.deliver orderID now => (s.MarkOrderDelivered orderID now).2.1
  | ShOp.sweep now => (s.RemoveExpiredOrders now).2.1

/-- State reached after a sequence of shelf operations. -/
def runShOps (s : Shelf) : List ShOp → Shelf
  | [] => s
  | op :: rest => runShOps (runShOp s op) rest

/-- How much one operation adds to the removed counter: 1 for a
successful `RemoveOrder` or `MarkOrderDelivered` (the id is resident),
0 otherwise — in particular 0 for every expiry sweep. -/
def removalCredit (s : Shelf) : ShOp → ℕ
  | ShOp.remove orderID => if (mapGet s.orders orderID).isSome then 1 else 0
  | ShOp.deliver orderID _ =>
      if (mapGet s.orders orderID).isSome then 1 else 0
  | ShOp.add _ _ => 0
  | ShOp.sweep _ => 0

/-- Number of successful removal or delivery calls along a sequence. -/
def removalCredits (s : Shelf) : List ShOp → ℕ
  | [] => 0
  | op :: rest => removalCredit s op + removalCredits (runShOp s op) rest

/-- Witness fixture: a manager whose cold shelf holds one order "a". -/
def coldFixture : ShelfManager :=
  { NewShelfManager 2 2 2 2 with
    coldShelf := { NewShelf "cold" 2 with
      orders := [("a",
        Order.mk "a" "Salad" "cold" 300 (1/2) 0 (some 0) none "cold"
          none none)] } }

/-- Witness fixture: a manager whose hot shelf holds one expired order
"e" (shelf life 1, decay rate 1, placed at 0) and one fresh order "f". -/
def sweepFixture : ShelfManager :=
  { NewShelfManager 2 2 2 2 with
    hotShelf := { NewShelf "hot" 2 with
      orders := [("e",
        Order.mk "e" "Soup" "hot" 1 1 0 (some 0) none "hot" none none),
       ("f",
        Order.mk "f" "Stew" "hot" 300 (1/2) 0 (some 0) none "hot"
          none none)] } }

-- ### Theorems ###

/-- Clamp-then-divide agrees with divide-the-max: the code's
`if remaining ≤ 0 then 0 else remaining / L` equals `max 0 remaining / L`. -/
theorem clamp_div_eq_max_div (r L : ℚ) :
    (if r ≤ 0 then (0 : ℚ) else r / L) = max 0 r / L := by
  by_cases h : r ≤ 0
  · simp [h, max_eq_left h]
  · simp [h, max_eq_right (le_of_not_le h)]

/-- Claim C1: `CalculateValue` matches the canonical single-rate reference
definition: 1.0 before any placement; `max 0 (L − R·(now − placed)) / L`
once placed, whether or not the order has touched overflow; and in the
overflow case the decay amount is the sum of the rate times the primary
dwell segment and the rate times the overflow segment, which telescopes to
the rate times the total elapsed time. -/
theorem C1_calculateValue_canonical (o : Order) (now p : ℚ) :
    (o.placedOnShelfAt = none → o.CalculateValue now = 1) ∧
    (o.placedOnShelfAt = some p →
      o.CalculateValue now =
        max 0 (o.shelfLife - o.decayRate * (now - p)) / o.shelfLife ∧
      ∀ v, o.placedOnOverflow = some v →
        o.decayRate * (v - p) + o.decayRate * (now - v) =
          o.decayRate * (now - p)) := by
  constructor
  · intro h
    simp [Order.CalculateValue, h]
  · intro h
    constructor
    · cases hov : o.placedOnOverflow with
      | none =>
          simp only [Order.CalculateValue, h, hov]
          exact clamp_div_eq_max_div _ _
      | some v =>
          simp only [Order.CalculateValue, h, hov]
          rw [clamp_div_eq_max_div]
          ring_nf
    · intro v _
      ring

/-- Witness for C1 at a concrete order: shelf life 300, decay rate 1/2,
placed at time 0, moved to overflow at time 50, evaluated at time 150. -/
theorem C1_witness :
    ({ id := "w1", name := "Fries", temp := "hot", shelfLife := 300,
       decayRate := 1/2, createdAt := 0, placedOnShelfAt := some 0,
       placedOnOverflow := some 50 : Order }.CalculateValue 150 =
        max 0 (300 - (1/2) * (150 - 0)) / 300) ∧
    ((1:ℚ)/2 * (50 - 0) + (1/2) * (150 - 50) = (1/2) * (150 - 0)) := by
  refine ⟨((C1_calculateValue_canonical _ 150 0).2 rfl).1, ?_⟩
  exact ((C1_calculateValue_canonical
    { id := "w1", name := "Fries", temp := "hot", shelfLife := 300,
      decayRate := 1/2, createdAt := 0, placedOnShelfAt := some 0,
      placedOnOverflow := some 50 : Order } 150 0).2 rfl).2 50 rfl

/-- Expiry characterisation once placed: the value is nonpositive exactly
when the decay amount has consumed the shelf life, or the shelf life is
itself nonpositive. -/
theorem calculateValue_nonpos_iff (o : Order) (now p : ℚ)
    (h : o.placedOnShelfAt = some p) :
    (o.CalculateValue now ≤ 0) ↔
      (o.shelfLife ≤ (match o.placedOnOverflow with
        | none => o.decayRate * (now - p)
        | some v => o.decayRate * (v - p) + o.decayRate * (now - v)) ∨
       o.shelfLife ≤ 0) := by
  cases hov : o.placedOnOverflow with
  | none =>
      simp only [Order.CalculateValue, h, hov]
      by_cases hc : o.shelfLife - o.decayRate * (now - p) ≤ 0
      · simp only [hc, if_pos]
        constructor
        · intro _; left; linarith
        · intro _; rfl
      · simp only [hc, if_neg, not_false_iff]
        push_neg at hc
        constructor
        · intro hle
          by_contra hcon
          push_neg at hcon
          have hpos : 0 < (o.shelfLife - o.decayRate * (now - p)) / o.shelfLife :=
            div_pos hc hcon.2
          linarith
        · intro hor
          rcases hor with hd | hL
          · linarith
          · rcases lt_or_eq_of_le hL with hlt | heq
            · exact le_of_lt (div_neg_of_pos_of_neg hc hlt)
            · simp [heq]
  | some v =>
      simp only [Order.CalculateValue, h, hov]
      by_cases hc : o.shelfLife -
          (o.decayRate * (v - p) + o.decayRate * (now - v)) ≤ 0
      · simp only [hc, if_pos]
        constructor
        · intro _; left; linarith
        · intro _; rfl
      · simp only [hc, if_neg, not_false_iff]
        push_neg at hc
        constructor
        · intro hle
          by_contra hcon
          push_neg at hcon
          have hpos : 0 < (o.shelfLife -
              (o.decayRate * (v - p) + o.decayRate * (now - v))) / o.shelfLife :=
            div_pos hc hcon.2
          linarith
        · intro hor
          rcases hor with hd | hL
          · linarith
          · rcases lt_or_eq_of_le hL with hlt | heq
            · exact le_of_lt (div_neg_of_pos_of_neg hc hlt)
            · simp [heq]

/-- Claim C8: `IsExpired now` holds exactly when `CalculateValue now ≤ 0`,
and expiry is monotone in time for a nonnegative decay rate: with the
placement fields fixed, an order expired at `t1 ≤ t2` is expired at `t2`. -/
theorem C8_isExpired_iff_value_nonpos_and_monotone (o : Order) (t1 t2 : ℚ) :
    (o.IsExpired t1 = true ↔ o.CalculateValue t1 ≤ 0) ∧
    (0 ≤ o.decayRate → t1 ≤ t2 →
      o.IsExpired t1 = true → o.IsExpired t2 = true) := by
  constructor
  · simp [Order.IsExpired]
  · intro hR h12 hexp
    simp only [Order.IsExpired, decide_eq_true_iff] at hexp ⊢
    cases hp : o.placedOnShelfAt with
    | none =>
        simp only [Order.CalculateValue, hp] at hexp
        exact absurd hexp (by norm_num)
    | some p =>
        rw [calculateValue_nonpos_iff o t1 p hp] at hexp
        rw [calculateValue_nonpos_iff o t2 p hp]
        have hstep : 0 ≤ o.decayRate * (t2 - t1) :=
          mul_nonneg hR (by linarith)
        cases hov : o.placedOnOverflow with
        | none =>
            simp only [hov] at hexp ⊢
            rcases hexp with hd | hL
            · left; nlinarith
            · right; exact hL
        | some v =>
            simp only [hov] at hexp ⊢
            rcases hexp with hd | hL
            · left; nlinarith
            · right; exact hL

/-- Witness for C8 at a concrete order: shelf life 1, decay rate 1, placed
at time 0; expired at time 2 and hence still expired at time 3. -/
theorem C8_witness :
    ({ id := "w8", name := "Soup", temp := "hot", shelfLife := 1,
       decayRate := 1, createdAt := 0,
       placedOnShelfAt := some 0 : Order }.IsExpired 3 = true) :=
  (C8_isExpired_iff_value_nonpos_and_monotone
    { id := "w8", name := "Soup", temp := "hot", shelfLife := 1,
      decayRate := 1, createdAt := 0, placedOnShelfAt := some 0 : Order }
    2 3).2 (by norm_num) (by norm_num)
    (by simp [Order.IsExpired, Order.CalculateValue])

/-- Claim C9 counterexample: for an order that has never touched overflow
(shelf life 300, decay rate 1/2, placed at time 0, evaluated at time 100)
the canonical formula gives 5/6 while `CalculateValueV2` gives 1/2, so the
two formulas are not equal off overflow. -/
theorem C9_counterexample :
    ({ id := "c9", name := "Pizza", temp := "hot", shelfLife := 300,
       decayRate := 1/2, createdAt := 0,
       placedOnShelfAt := some 0 : Order }.placedOnOverflow = none) ∧
    ({ id := "c9", name := "Pizza", temp := "hot", shelfLife := 300,
       decayRate := 1/2, createdAt := 0,
       placedOnShelfAt := some 0 : Order }.CalculateValue 100 ≠
     { id := "c9", name := "Pizza", temp := "hot", shelfLife := 300,
       decayRate := 1/2, createdAt := 0,
       placedOnShelfAt := some 0 : Order }.CalculateValueV2 100) := by
  constructor
  · rfl
  · simp only [Order.CalculateValue, Order.CalculateValueV2]
    norm_num

/-- Claim C9 (amended): `CalculateValueV2` additionally subtracts the raw
elapsed age from the shelf life, so off overflow it behaves like the
canonical formula with decay rate `1 + R` (and on overflow like `1 + 2R`)
rather than agreeing with `CalculateValue`; the two formulas agree for an
order never placed on any shelf, and there is an order off overflow on
which they differ. -/
theorem C9_v2_vs_canonical (o : Order) (now p : ℚ) :
    (o.placedOnShelfAt = none →
      o.CalculateValue now = 1 ∧ o.CalculateValueV2 now = 1) ∧
    (o.placedOnShelfAt = some p → o.placedOnOverflow = none →
      o.CalculateValueV2 now =
        max 0 (o.shelfLife - (1 + o.decayRate) * (now - p)) / o.shelfLife) ∧
    (∀ v, o.placedOnShelfAt = some p → o.placedOnOverflow = some v →
      o.CalculateValueV2 now =
        max 0 (o.shelfLife - (1 + 2 * o.decayRate) * (now - p)) /
          o.shelfLife) ∧
    (∃ q : Order, ∃ t : ℚ, q.placedOnOverflow = none ∧
      q.CalculateValue t ≠ q.CalculateValueV2 t) := by
  refine ⟨?_, ?_, ?_, ?_⟩
  · intro h
    constructor
    · simp [Order.CalculateValue, h]
    · simp [Order.CalculateValueV2, h]
  · intro h hov
    simp only [Order.CalculateValueV2, h, hov]
    rw [clamp_div_eq_max_div]
    congr 2
    ring
  · intro v h hov
    simp only [Order.CalculateValueV2, h, hov]
    rw [clamp_div_eq_max_div]
    congr 2
    ring
  · refine ⟨Order.mk "c9" "Pizza" "hot" 300 (1/2) 0 (some 0) none "" none none,
      100, rfl, ?_⟩
    simp only [Order.CalculateValue, Order.CalculateValueV2]
    norm_num

/-- Witness for C9 at a concrete order on overflow: shelf life 300, decay
rate 1/2, placed at 0, moved to overflow at 50, evaluated at 150;
`CalculateValueV2` equals the canonical shape with rate `1 + 2·(1/2)`. -/
theorem C9_witness :
    ({ id := "w9", name := "Fries", temp := "hot", shelfLife := 300,
       decayRate := 1/2, createdAt := 0, placedOnShelfAt := some 0,
       placedOnOverflow := some 50 : Order }.CalculateValueV2 150 =
      max 0 (300 - (1 + 2 * (1/2)) * (150 - 0)) / 300) :=
  ((C9_v2_vs_canonical
    { id := "w9", name := "Fries", temp := "hot", shelfLife := 300,
      decayRate := 1/2, createdAt := 0, placedOnShelfAt := some 0,
      placedOnOverflow := some 50 : Order } 150 0).2.2.1 50 rfl rfl)


/-- Lookup after a Go map update. -/
theorem mapGet_mapInsert (l : List (String × Order)) (k q : String)
    (v : Order) :
    mapGet (mapInsert l k v) q = if k = q then some v else mapGet l q := by
  induction l with
  | nil =>
      simp [mapInsert, mapGet]
  | cons hd tl ih =>
      obtain ⟨k1, v1⟩ := hd
      by_cases h1 : k1 = k
      · subst h1
        simp only [mapInsert, if_pos rfl, mapGet]
        by_cases h2 : k1 = q
        · simp [mapGet, h2]
        · simp [mapGet, h2]
      · simp only [mapInsert, if_neg h1, mapGet]
        by_cases h2 : k1 = q
        · subst h2
          have hne : k ≠ k1 := fun he => h1 he.symm
          simp [mapGet, hne]
        · simp [mapGet, h2, ih]

/-- Inserting a fresh key grows the map by one entry. -/
theorem length_mapInsert_of_none (l : List (String × Order)) (k : String)
    (v : Order) (h : mapGet l k = none) :
    (mapInsert l k v).length = l.length + 1 := by
  induction l with
  | nil => simp [mapInsert]
  | cons hd tl ih =>
      obtain ⟨k1, v1⟩ := hd
      by_cases h1 : k1 = k
      · simp [mapGet, h1] at h
      · simp only [mapGet, if_neg h1] at h
        simp [mapInsert, h1, ih h]

/-- Updating a present key keeps the map size. -/
theorem length_mapInsert_of_some (l : List (String × Order)) (k : String)
    (v : Order) (h : (mapGet l k).isSome = true) :
    (mapInsert l k v).length = l.length := by
  induction l with
  | nil => simp [mapGet] at h
  | cons hd tl ih =>
      obtain ⟨k1, v1⟩ := hd
      by_cases h1 : k1 = k
      · simp [mapInsert, h1]
      · simp only [mapGet, if_neg h1] at h
        simp [mapInsert, h1, ih h]

/-- Deleting a present key shrinks the map by one entry. -/
theorem length_mapErase_of_some (l : List (String × Order)) (k : String)
    (h : (mapGet l k).isSome = true) :
    (mapErase l k).length + 1 = l.length := by
  induction l with
  | nil => simp [mapGet] at h
  | cons hd tl ih =>
      obtain ⟨k1, v1⟩ := hd
      by_cases h1 : k1 = k
      · simp [mapErase, h1]
      · simp only [mapGet, if_neg h1] at h
        simp [mapErase, h1, ih h]

/-- Deleting an absent key is a no-op. -/
theorem mapErase_of_none (l : List (String × Order)) (k : String)
    (h : mapGet l k = none) : mapErase l k = l := by
  induction l with
  | nil => simp [mapErase]
  | cons hd tl ih =>
      obtain ⟨k1, v1⟩ := hd
      by_cases h1 : k1 = k
      · simp [mapGet, h1] at h
      · simp only [mapGet, if_neg h1] at h
        simp [mapErase, h1, ih h]

/-- `stampOrder` never changes the order's identifier. -/
theorem stampOrder_id (s : Shelf) (o : Order) (now : ℚ) :
    (stampOrder s o now).id = o.id := by
  simp only [stampOrder]
  cases o.placedOnShelfAt <;>
    by_cases ht : s.type = "overflow" <;>
      simp only [ht, if_pos, if_neg, not_false_iff] <;>
        cases h2 : o.placedOnOverflow <;> simp [h2]

/-- A failed `AddOrder` (shelf at or over capacity) mutates nothing. -/
theorem addOrder_full (s : Shelf) (o : Order) (now : ℚ)
    (h : (s.orders.length : ℤ) ≥ s.capacity) :
    s.AddOrder o now = (false, s, o) := by
  simp [Shelf.AddOrder, h]

/-- A successful `AddOrder` succeeds, stores the stamped order under its
id, and returns the stamped order. -/
theorem addOrder_not_full (s : Shelf) (o : Order) (now : ℚ)
    (h : ¬((s.orders.length : ℤ) ≥ s.capacity)) :
    (s.AddOrder o now).1 = true ∧
    (s.AddOrder o now).2.1.orders =
      mapInsert s.orders (stampOrder s o now).id (stampOrder s o now) ∧
    (s.AddOrder o now).2.2 = stampOrder s o now := by
  simp [Shelf.AddOrder, h]

/-- `AddOrder` never changes the shelf's capacity. -/
theorem addOrder_capacity (s : Shelf) (o : Order) (now : ℚ) :
    (s.AddOrder o now).2.1.capacity = s.capacity := by
  simp only [Shelf.AddOrder]
  split <;> rfl

/-- `AddOrder` never changes the shelf's zone type. -/
theorem addOrder_type (s : Shelf) (o : Order) (now : ℚ) :
    (s.AddOrder o now).2.1.type = s.type := by
  simp only [Shelf.AddOrder]
  split <;> rfl

/-- A Go map update grows the map by at most one entry. -/
theorem length_mapInsert_le (l : List (String × Order)) (k : String)
    (v : Order) : (mapInsert l k v).length ≤ l.length + 1 := by
  cases h : mapGet l k with
  | none => rw [length_mapInsert_of_none l k v h]
  | some w =>
      rw [length_mapInsert_of_some l k v (by simp [h])]
      omega

/-- Unfolding one step of `addAll`. -/
theorem addAll_cons (s : Shelf) (o : Order) (rest : List Order) (now : ℚ) :
    addAll s (o :: rest) now =
      ((addAll (s.AddOrder o now).2.1 rest now).1,
       (s.AddOrder o now).1 :: (addAll (s.AddOrder o now).2.1 rest now).2) :=
  rfl

/-- Filling a shelf: starting with room for exactly one fewer order than
the batch, every add succeeds until the shelf holds `C` orders and the
final add fails, leaving occupancy `C`. -/
theorem addAll_fills (C : ℕ) :
    ∀ (os : List Order) (s : Shelf) (now : ℚ),
      os ≠ [] →
      s.capacity = (C : ℤ) →
      (os.map Order.id).Nodup →
      (∀ o1 ∈ os, mapGet s.orders o1.id = none) →
      s.orders.length + os.length = C + 1 →
      (addAll s os now).2 =
        List.replicate (C - s.orders.length) true ++ [false] ∧
      (addAll s os now).1.orders.length = C := by
  intro os
  induction os with
  | nil =>
      intro s now hne
      exact absurd rfl hne
  | cons o rest ih =>
      intro s now _ hcap hnodup hfresh hlen
      cases rest with
      | nil =>
          have hlen1 : s.orders.length = C := by
            simpa using hlen
          have hfull : (s.orders.length : ℤ) ≥ s.capacity := by
            rw [hcap, hlen1]
          rw [addAll_cons, addOrder_full s o now hfull]
          constructor
          · show (false, s, o).1 :: (addAll (false, s, o).2.1 [] now).2 = _
            simp [addAll, hlen1]
          · show (addAll (false, s, o).2.1 [] now).1.orders.length = C
            simpa [addAll] using hlen1
      | cons o2 rest2 =>
          have hlt : s.orders.length < C := by
            simp only [List.length_cons] at hlen
            omega
          have hnotfull : ¬((s.orders.length : ℤ) ≥ s.capacity) := by
            rw [hcap]
            push_neg
            exact_mod_cast hlt
          obtain ⟨hb, ho, _⟩ := addOrder_not_full s o now hnotfull
          have hfresh0 : mapGet s.orders o.id = none :=
            hfresh o (List.mem_cons_self o _)
          have hlen1 : (s.AddOrder o now).2.1.orders.length =
              s.orders.length + 1 := by
            rw [ho, stampOrder_id, length_mapInsert_of_none _ _ _ hfresh0]
          have hcap1 : (s.AddOrder o now).2.1.capacity = (C : ℤ) := by
            rw [addOrder_capacity, hcap]
          have hnodup1 : ((o2 :: rest2).map Order.id).Nodup := by
            simpa using hnodup.of_cons
          have hid_notin : o.id ∉ (o2 :: rest2).map Order.id := by
            have := hnodup
        
            simp only [List.map_cons, List.nodup_cons] at this
            exact this.1
          have hfresh1 : ∀ o1 ∈ o2 :: rest2,
              mapGet (s.AddOrder o now).2.1.orders o1.id = none := by
            intro o1 hmem
            rw [ho, stampOrder_id, mapGet_mapInsert]
            have hne : o.id ≠ o1.id := by
              intro he
              exact hid_notin (by
                rw [he]
                exact List.mem_map_of_mem Order.id hmem)
            rw [if_neg hne]
            exact hfresh o1 (List.mem_cons_of_mem o hmem)
          have hlen2 : (s.AddOrder o now).2.1.orders.length +
              (o2 :: rest2).length = C + 1 := by
            rw [hlen1]
            simp only [List.length_cons] at hlen ⊢
            omega
          have hrec := ih (s.AddOrder o now).2.1 now (by simp) hcap1
            hnodup1 hfresh1 hlen2
          rw [addAll_cons]
          constructor
          · show (s.AddOrder o now).1 ::
                (addAll (s.AddOrder o now).2.1 (o2 :: rest2) now).2 = _
            rw [hb, hrec.1, hlen1]
            have hsplit : C - s.orders.length =
                (C - (s.orders.length + 1)) + 1 := by omega
            rw [hsplit, List.replicate_succ]
            simp
          · show (addAll (s.AddOrder o now).2.1
                (o2 :: rest2) now).1.orders.length = C
            exact hrec.2

/-- Claim C2: a shelf's resident count never exceeds its capacity.
`AddOrder` at capacity returns false with no mutation; `AddOrder` below
capacity keeps the count within capacity; and on an empty shelf of
capacity `C`, a batch of `C + 1` distinct-id adds yields `C` successes
followed by one failure, with final occupancy exactly `C`. -/
theorem C2_capacity_never_exceeded (s : Shelf) (o : Order) (now : ℚ)
    (C : ℕ) (os : List Order) :
    ((s.orders.length : ℤ) = s.capacity → s.AddOrder o now = (false, s, o)) ∧
    ((s.orders.length : ℤ) ≤ s.capacity →
      ((s.AddOrder o now).2.1.orders.length : ℤ) ≤ s.capacity) ∧
    (s.orders = [] → s.capacity = (C : ℤ) → os.length = C + 1 →
      (os.map Order.id).Nodup →
      (addAll s os now).2 = List.replicate C true ++ [false] ∧
      (addAll s os now).1.orders.length = C) := by
  refine ⟨?_, ?_, ?_⟩
  · intro h
    exact addOrder_full s o now h.ge
  · intro hle
    by_cases hfull : (s.orders.length : ℤ) ≥ s.capacity
    · rw [addOrder_full s o now hfull]
      exact hle
    · obtain ⟨_, ho, _⟩ := addOrder_not_full s o now hfull
      push_neg at hfull
      have hb : (mapInsert s.orders (stampOrder s o now).id
          (stampOrder s o now)).length ≤ s.orders.length + 1 :=
        length_mapInsert_le _ _ _
      rw [ho]
      have : (s.orders.length : ℤ) + 1 ≤ s.capacity := by
        exact_mod_cast Int.add_one_le_iff.mpr hfull
      calc ((mapInsert s.orders (stampOrder s o now).id
            (stampOrder s o now)).length : ℤ)
          ≤ (s.orders.length : ℤ) + 1 := by exact_mod_cast hb
        _ ≤ s.capacity := this
  · intro hempty hcap hlen hnodup
    have hne : os ≠ [] := by
      intro he
      rw [he] at hlen
      simp at hlen
    have hfresh : ∀ o1 ∈ os, mapGet s.orders o1.id = none := by
      intro o1 _
      rw [hempty]
      rfl
    have hlen0 : s.orders.length + os.length = C + 1 := by
      rw [hempty, hlen]
      simp
    have h := addAll_fills C os s now hne hcap hnodup hfresh hlen0
    rw [hempty] at h
    simpa using h

/-- Witness for C2: a hot shelf of capacity 1 and two distinct orders;
the first add succeeds, the second fails, occupancy stays 1. -/
theorem C2_witness :
    (addAll (NewShelf "hot" 1)
      [Order.mk "a" "Burger" "hot" 300 (1/2) 0 none none "" none none,
       Order.mk "b" "Pasta" "hot" 300 (1/2) 0 none none "" none none]
      0).2 = [true, false] ∧
    (addAll (NewShelf "hot" 1)
      [Order.mk "a" "Burger" "hot" 300 (1/2) 0 none none "" none none,
       Order.mk "b" "Pasta" "hot" 300 (1/2) 0 none none "" none none]
      0).1.orders.length = 1 := by
  have h := (C2_capacity_never_exceeded (NewShelf "hot" 1)
    (Order.mk "a" "Burger" "hot" 300 (1/2) 0 none none "" none none) 0 1
    [Order.mk "a" "Burger" "hot" 300 (1/2) 0 none none "" none none,
     Order.mk "b" "Pasta" "hot" 300 (1/2) 0 none none "" none none]).2.2
    rfl rfl rfl (by simp)
  exact ⟨by simpa using h.1, h.2⟩

/-- Claim C4 counterexample: placing an order of unrecognized temperature
class "lukewarm" returns false and bumps the wasted counter, but the
order's wasted timestamp stays unset rather than being set to now, unlike
the capacity-exhaustion path. -/
theorem C4_counterexample :
    ((NewShelfManager 1 1 1 1).PlaceOrder
      (Order.mk "x" "Tea" "lukewarm" 300 (1/2) 0 none none "" none none)
      5).1 = false ∧
    ((NewShelfManager 1 1 1 1).PlaceOrder
      (Order.mk "x" "Tea" "lukewarm" 300 (1/2) 0 none none "" none none)
      5).2.1.totalOrdersWasted = 1 ∧
    ¬(((NewShelfManager 1 1 1 1).PlaceOrder
      (Order.mk "x" "Tea" "lukewarm" 300 (1/2) 0 none none "" none none)
      5).2.2.wastedAt = some 5) := by
  refine ⟨rfl, rfl, ?_⟩
  intro h
  simp [ShelfManager.PlaceOrder, GetShelfForTemperature] at h

/-- Claim C4 (amended): `PlaceOrder` on an unrecognized temperature class
returns false and increments total-received and total-wasted, but — unlike
the capacity-exhaustion path — it does not set the order's wasted
timestamp: the order is returned unmodified and no shelf changes. -/
theorem C4_unknown_temperature_wasted (sm : ShelfManager) (o : Order)
    (now : ℚ) (h : GetShelfForTemperature o.temp = none) :
    sm.PlaceOrder o now =
      (false,
       { sm with
         totalOrdersReceived := sm.totalOrdersReceived + 1,
         totalOrdersWasted := sm.totalOrdersWasted + 1 },
       o) := by
  simp [ShelfManager.PlaceOrder, h]

/-- Witness for C4 at the concrete "lukewarm" order. -/
theorem C4_witness :
    GetShelfForTemperature "lukewarm" = none ∧
    ((NewShelfManager 1 1 1 1).PlaceOrder
      (Order.mk "x" "Tea" "lukewarm" 300 (1/2) 0 none none "" none none)
      5).2.2.wastedAt = none ∧
    ((NewShelfManager 1 1 1 1).PlaceOrder
      (Order.mk "x" "Tea" "lukewarm" 300 (1/2) 0 none none "" none none)
      5).2.1.totalOrdersWasted = 1 := by
  have h := C4_unknown_temperature_wasted (NewShelfManager 1 1 1 1)
    (Order.mk "x" "Tea" "lukewarm" 300 (1/2) 0 none none "" none none)
    5 rfl
  refine ⟨rfl, ?_, ?_⟩
  · rw [h]
  · rw [h]
    rfl

/-- Claim C5, evaluated at the failing input: an order whose
overflow-placement timestamp was first set at time 1 is re-placed at
time 5 with its primary (hot) shelf full and overflow free.  The shelf's
own `AddOrder` stamping preserves the original timestamp (first conjunct),
but the manager's overflow path then overwrites it unconditionally
(manager.go line 61), so the resulting order records 5, not 1. -/
theorem C5_manager_overwrites_overflow_timestamp :
    ((stampOrder (NewShelf "overflow" 1)
      (Order.mk "v" "Burger" "hot" 300 (1/2) 0 (some 0) (some 1)
        "overflow" none none) 5).placedOnOverflow = some 1) ∧
    ((NewShelfManager 0 1 1 1).PlaceOrder
      (Order.mk "v" "Burger" "hot" 300 (1/2) 0 (some 0) (some 1)
        "overflow" none none) 5).1 = true ∧
    ((NewShelfManager 0 1 1 1).PlaceOrder
      (Order.mk "v" "Burger" "hot" 300 (1/2) 0 (some 0) (some 1)
        "overflow" none none) 5).2.2.placedOnOverflow = some 5 ∧
    mapGet (((NewShelfManager 0 1 1 1).PlaceOrder
      (Order.mk "v" "Burger" "hot" 300 (1/2) 0 (some 0) (some 1)
        "overflow" none none) 5).2.1.overflowShelf.orders) "v" =
      some (Order.mk "v" "Burger" "hot" 300 (1/2) 0 (some 0) (some 5)
        "overflow" none none) := by
  exact ⟨rfl, rfl, rfl, rfl⟩

/-- One shelf operation adds exactly its removal credit to the removed
counter: 1 for a successful `RemoveOrder` or `MarkOrderDelivered`, 0 for
anything else — in particular 0 for an expiry sweep. -/
theorem runShOp_removed (s : Shelf) (op : ShOp) :
    (runShOp s op).stats.ordersRemoved =
      s.stats.ordersRemoved + removalCredit s op := by
  cases op with
  | add o now =>
      simp only [runShOp, removalCredit, Shelf.AddOrder]
      split <;> rfl
  | remove orderID =>
      cases h : mapGet s.orders orderID <;>
        simp [runShOp, removalCredit, Shelf.RemoveOrder, h]
  | deliver orderID now =>
      cases h : mapGet s.orders orderID <;>
        simp [runShOp, removalCredit, Shelf.MarkOrderDelivered, h]
  | sweep now =>
      simp [runShOp, removalCredit, Shelf.RemoveExpiredOrders]

/-- Claim C10: along any sequence of shelf operations the removed counter
grows by exactly the number of successful `RemoveOrder` and
`MarkOrderDelivered` calls, and an expiry sweep leaves the removed
counter untouched while bumping the wasted counter by the number it
deleted. -/
theorem C10_removed_counts_removals_only (ops : List ShOp) (s : Shelf)
    (now : ℚ) :
    (runShOps s ops).stats.ordersRemoved =
      s.stats.ordersRemoved + removalCredits s ops ∧
    (s.RemoveExpiredOrders now).2.1.stats.ordersRemoved =
      s.stats.ordersRemoved ∧
    (s.RemoveExpiredOrders now).2.1.stats.ordersWasted =
      s.stats.ordersWasted + (s.RemoveExpiredOrders now).1 := by
  refine ⟨?_, rfl, rfl⟩
  induction ops generalizing s with
  | nil => simp [runShOps, removalCredits]
  | cons op rest ih =>
      simp only [runShOps, removalCredits]
      rw [ih (runShOp s op), runShOp_removed]
      omega

/-- `deliverFromShelf` on an absent id: no change. -/
theorem deliverFromShelf_none (s : Shelf) (orderID : String) (now : ℚ)
    (h : mapGet s.orders orderID = none) :
    deliverFromShelf s orderID now = (false, s, none) := by
  simp [deliverFromShelf, h]

/-- `deliverFromShelf` on a resident id: removes it, stamps delivery,
bumps the shelf's delivered and removed statistics. -/
theorem deliverFromShelf_some (s : Shelf) (orderID : String) (now : ℚ)
    (o : Order) (h : mapGet s.orders orderID = some o) :
    deliverFromShelf s orderID now =
      (true,
       { s with
         orders := mapErase s.orders orderID,
         stats := { s.stats with
           ordersRemoved := s.stats.ordersRemoved + 1,
           ordersDelivered := s.stats.ordersDelivered + 1 } },
       some { o with deliveredAt := some now }) := by
  simp [deliverFromShelf, Shelf.MarkOrderDelivered, h]

/-- `DeliverOrder` when the id is on no shelf: false, nothing mutated. -/
theorem deliverOrder_not_found (sm : ShelfManager) (orderID : String)
    (now : ℚ)
    (h1 : mapGet sm.hotShelf.orders orderID = none)
    (h2 : mapGet sm.coldShelf.orders orderID = none)
    (h3 : mapGet sm.frozenShelf.orders orderID = none)
    (h4 : mapGet sm.overflowShelf.orders orderID = none) :
    sm.DeliverOrder orderID now = (false, sm, none) := by
  simp [ShelfManager.DeliverOrder,
    deliverFromShelf_none _ _ now h1, deliverFromShelf_none _ _ now h2,
    deliverFromShelf_none _ _ now h3, deliverFromShelf_none _ _ now h4]

/-- `DeliverOrder` when the id is on the hot shelf (searched first). -/
theorem deliverOrder_hot (sm : ShelfManager) (orderID : String) (now : ℚ)
    (o : Order) (h : mapGet sm.hotShelf.orders orderID = some o) :
    sm.DeliverOrder orderID now =
      (true,
       { sm with
         hotShelf := { sm.hotShelf with
           orders := mapErase sm.hotShelf.orders orderID,
           stats := { sm.hotShelf.stats with
             ordersRemoved := sm.hotShelf.stats.ordersRemoved + 1,
             ordersDelivered := sm.hotShelf.stats.ordersDelivered + 1 } },
         totalOrdersDelivered := sm.totalOrdersDelivered + 1 },
       some { o with deliveredAt := some now }) := by
  simp [ShelfManager.DeliverOrder, deliverFromShelf_some _ _ now o h]

/-- `DeliverOrder` when the id is absent from hot and on the cold shelf. -/
theorem deliverOrder_cold (sm : ShelfManager) (orderID : String) (now : ℚ)
    (o : Order)
    (h1 : mapGet sm.hotShelf.orders orderID = none)
    (h : mapGet sm.coldShelf.orders orderID = some o) :
    sm.DeliverOrder orderID now =
      (true,
       { sm with
         coldShelf := { sm.coldShelf with
           orders := mapErase sm.coldShelf.orders orderID,
           stats := { sm.coldShelf.stats with
             ordersRemoved := sm.coldShelf.stats.ordersRemoved + 1,
             ordersDelivered := sm.coldShelf.stats.ordersDelivered + 1 } },
         totalOrdersDelivered := sm.totalOrdersDelivered + 1 },
       some { o with deliveredAt := some now }) := by
  simp [ShelfManager.DeliverOrder, deliverFromShelf_none _ _ now h1,
    deliverFromShelf_some _ _ now o h]

/-- `DeliverOrder` when the id is only reached on the frozen shelf. -/
theorem deliverOrder_frozen (sm : ShelfManager) (orderID : String)
    (now : ℚ) (o : Order)
    (h1 : mapGet sm.hotShelf.orders orderID = none)
    (h2 : mapGet sm.coldShelf.orders orderID = none)
    (h : mapGet sm.frozenShelf.orders orderID = some o) :
    sm.DeliverOrder orderID now =
      (true,
       { sm with
         frozenShelf := { sm.frozenShelf with
           orders := mapErase sm.frozenShelf.orders orderID,
           stats := { sm.frozenShelf.stats with
             ordersRemoved := sm.frozenShelf.stats.ordersRemoved + 1,
             ordersDelivered := sm.frozenShelf.stats.ordersDelivered + 1 } },
         totalOrdersDelivered := sm.totalOrdersDelivered + 1 },
       some { o with deliveredAt := some now }) := by
  simp [ShelfManager.DeliverOrder, deliverFromShelf_none _ _ now h1,
    deliverFromShelf_none _ _ now h2, deliverFromShelf_some _ _ now o h]

/-- `DeliverOrder` when the id is only reached on the overflow shelf. -/
theorem deliverOrder_overflow (sm : ShelfManager) (orderID : String)
    (now : ℚ) (o : Order)
    (h1 : mapGet sm.hotShelf.orders orderID = none)
    (h2 : mapGet sm.coldShelf.orders orderID = none)
    (h3 : mapGet sm.frozenShelf.orders orderID = none)
    (h : mapGet sm.overflowShelf.orders orderID = some o) :
    sm.DeliverOrder orderID now =
      (true,
       { sm with
         overflowShelf := { sm.overflowShelf with
           orders := mapErase sm.overflowShelf.orders orderID,
           stats := { sm.overflowShelf.stats with
             ordersRemoved := sm.overflowShelf.stats.ordersRemoved + 1,
             ordersDelivered := sm.overflowShelf.stats.ordersDelivered + 1 } },
         totalOrdersDelivered := sm.totalOrdersDelivered + 1 },
       some { o with deliveredAt := some now }) := by
  simp [ShelfManager.DeliverOrder, deliverFromShelf_none _ _ now h1,
    deliverFromShelf_none _ _ now h2, deliverFromShelf_none _ _ now h3,
    deliverFromShelf_some _ _ now o h]

/-- Claim C7: `DeliverOrder` searches hot, cold, frozen, overflow in that
order.  An id resident nowhere yields false with no state change at all;
an id first found on a given shelf is removed from exactly that shelf,
gets its delivered timestamp set, and bumps total-delivered by exactly 1,
leaving every other shelf and counter unchanged. -/
theorem C7_deliverOrder_fixed_search (sm : ShelfManager)
    (orderID : String) (now : ℚ) :
    (mapGet sm.hotShelf.orders orderID = none →
     mapGet sm.coldShelf.orders orderID = none →
     mapGet sm.frozenShelf.orders orderID = none →
     mapGet sm.overflowShelf.orders orderID = none →
      sm.DeliverOrder orderID now = (false, sm, none)) ∧
    (∀ o, mapGet sm.hotShelf.orders orderID = some o →
      sm.DeliverOrder orderID now =
        (true,
         { sm with
           hotShelf := { sm.hotShelf with
             orders := mapErase sm.hotShelf.orders orderID,
             stats := { sm.hotShelf.stats with
               ordersRemoved := sm.hotShelf.stats.ordersRemoved + 1,
               ordersDelivered :=
                 sm.hotShelf.stats.ordersDelivered + 1 } },
           totalOrdersDelivered := sm.totalOrdersDelivered + 1 },
         some { o with deliveredAt := some now })) ∧
    (∀ o, mapGet sm.hotShelf.orders orderID = none →
      mapGet sm.coldShelf.orders orderID = some o →
      sm.DeliverOrder orderID now =
        (true,
         { sm with
           coldShelf := { sm.coldShelf with
             orders := mapErase sm.coldShelf.orders orderID,
             stats := { sm.coldShelf.stats with
               ordersRemoved := sm.coldShelf.stats.ordersRemoved + 1,
               ordersDelivered :=
                 sm.coldShelf.stats.ordersDelivered + 1 } },
           totalOrdersDelivered := sm.totalOrdersDelivered + 1 },
         some { o with deliveredAt := some now })) ∧
    (∀ o, mapGet sm.hotShelf.orders orderID = none →
      mapGet sm.coldShelf.orders orderID = none →
      mapGet sm.frozenShelf.orders orderID = some o →
      sm.DeliverOrder orderID now =
        (true,
         { sm with
           frozenShelf := { sm.frozenShelf with
             orders := mapErase sm.frozenShelf.orders orderID,
             stats := { sm.frozenShelf.stats with
               ordersRemoved := sm.frozenShelf.stats.ordersRemoved + 1,
               ordersDelivered :=
                 sm.frozenShelf.stats.ordersDelivered + 1 } },
           totalOrdersDelivered := sm.totalOrdersDelivered + 1 },
         some { o with deliveredAt := some now })) ∧
    (∀ o, mapGet sm.hotShelf.orders orderID = none →
      mapGet sm.coldShelf.orders orderID = none →
      mapGet sm.frozenShelf.orders orderID = none →
      mapGet sm.overflowShelf.orders orderID = some o →
      sm.DeliverOrder orderID now =
        (true,
         { sm with
           overflowShelf := { sm.overflowShelf with
             orders := mapErase sm.overflowShelf.orders orderID,
             stats := { sm.overflowShelf.stats with
               ordersRemoved := sm.overflowShelf.stats.ordersRemoved + 1,
               ordersDelivered :=
                 sm.overflowShelf.stats.ordersDelivered + 1 } },
           totalOrdersDelivered := sm.totalOrdersDelivered + 1 },
         some { o with deliveredAt := some now })) := by
  refine ⟨?_, ?_, ?_, ?_, ?_⟩
  · intro h1 h2 h3 h4
    exact deliverOrder_not_found sm orderID now h1 h2 h3 h4
  · intro o h
    exact deliverOrder_hot sm orderID now o h
  · intro o h1 h
    exact deliverOrder_cold sm orderID now o h1 h
  · intro o h1 h2 h
    exact deliverOrder_frozen sm orderID now o h1 h2 h
  · intro o h1 h2 h3 h
    exact deliverOrder_overflow sm orderID now o h1 h2 h3 h

/-- Witness for C7: the cold-shelf fixture; delivering "a" succeeds via
the cold shelf, delivering the absent "x" changes nothing. -/
theorem C7_witness :
    (coldFixture.DeliverOrder "a" 7).1 = true ∧
    (coldFixture.DeliverOrder "a" 7).2.1.totalOrdersDelivered = 1 ∧
    (coldFixture.DeliverOrder "a" 7).2.1.coldShelf.orders = [] ∧
    (coldFixture.DeliverOrder "a" 7).2.2 =
      some (Order.mk "a" "Salad" "cold" 300 (1/2) 0 (some 0) none "cold"
        none (some 7)) ∧
    coldFixture.DeliverOrder "x" 7 = (false, coldFixture, none) := by
  have hc := (C7_deliverOrder_fixed_search coldFixture "a" 7).2.2.1
    (Order.mk "a" "Salad" "cold" 300 (1/2) 0 (some 0) none "cold"
      none none) rfl rfl
  have hn := (C7_deliverOrder_fixed_search coldFixture "x" 7).1
    rfl rfl rfl rfl
  refine ⟨?_, ?_, ?_, ?_, hn⟩ <;> (rw [hc]; try rfl)

/-- A list splits into the part satisfying a predicate and the rest. -/
theorem filter_split (l : List (String × Order))
    (p : String × Order → Bool) :
    (l.filter p).length + (l.filter (fun x => !(p x))).length =
      l.length := by
  induction l with
  | nil => rfl
  | cons hd tl ih =>
      by_cases h : p hd = true <;> simp [List.filter_cons, h] <;> omega

/-- Filtering cannot make an absent key appear. -/
theorem mapGet_filter_none (l : List (String × Order))
    (p : String × Order → Bool) (k : String) (h : mapGet l k = none) :
    mapGet (l.filter p) k = none := by
  induction l with
  | nil => rfl
  | cons hd tl ih =>
      obtain ⟨k1, v1⟩ := hd
      by_cases h1 : k1 = k
      · simp [mapGet, h1] at h
      · simp only [mapGet, if_neg h1] at h
        by_cases hp : p (k1, v1) = true
        · simp [List.filter_cons, hp, mapGet, h1, ih h]
        · simp [List.filter_cons, hp, ih h]

/-- An absent key means the key is not among the stored keys. -/
theorem mapGet_eq_none_of_not_mem (l : List (String × Order)) (k : String)
    (h : k ∉ l.map Prod.fst) : mapGet l k = none := by
  induction l with
  | nil => rfl
  | cons hd tl ih =>
      obtain ⟨k1, v1⟩ := hd
      simp only [List.map_cons, List.mem_cons] at h
      push_neg at h
      have h1 : k1 ≠ k := fun he => h.1 he.symm
      simp [mapGet, h1, ih h.2]

/-- Lookup in a filtered map with unique keys: the entry survives exactly
when it satisfies the predicate. -/
theorem mapGet_filter (l : List (String × Order))
    (p : String × Order → Bool) (k : String)
    (hnd : (l.map Prod.fst).Nodup) :
    mapGet (l.filter p) k =
      match mapGet l k with
      | none => none
      | some o => if p (k, o) then some o else none := by
  induction l with
  | nil => rfl
  | cons hd tl ih =>
      obtain ⟨k1, v1⟩ := hd
      simp only [List.map_cons, List.nodup_cons] at hnd
      by_cases h1 : k1 = k
      · subst h1
        have htl : mapGet tl k1 = none :=
          mapGet_eq_none_of_not_mem tl k1 hnd.1
        by_cases hp : p (k1, v1) = true
        · simp [List.filter_cons, hp, mapGet]
        · simp only [List.filter_cons, hp, Bool.false_eq_true, if_neg,
            not_false_iff, mapGet, if_pos]
          simp [mapGet_filter_none tl p k1 htl, hp]
      · by_cases hp : p (k1, v1) = true
        · simp [List.filter_cons, hp, mapGet, h1, ih hnd.2]
        · simp [List.filter_cons, hp, mapGet, h1, ih hnd.2]

/-- The sweep keeps exactly the non-expired residents. -/
theorem sweep_orders (s : Shelf) (now : ℚ) :
    (s.RemoveExpiredOrders now).2.1.orders =
      s.orders.filter (fun kv => !(kv.2.IsExpired now)) :=
  rfl

/-- The sweep count plus the surviving occupancy is the old occupancy. -/
theorem sweep_count (s : Shelf) (now : ℚ) :
    (s.RemoveExpiredOrders now).1 +
      (s.RemoveExpiredOrders now).2.1.orders.length =
      s.orders.length := by
  simpa [Shelf.RemoveExpiredOrders] using
    filter_split s.orders (fun kv => kv.2.IsExpired now)

/-- The sweep returns as many orders as it counts. -/
theorem sweep_removed_length (s : Shelf) (now : ℚ) :
    (s.RemoveExpiredOrders now).2.2.length =
      (s.RemoveExpiredOrders now).1 := by
  simp [Shelf.RemoveExpiredOrders]

/-- Every order a sweep removes carries the sweep's wasted timestamp. -/
theorem sweep_removed_wasted (s : Shelf) (now : ℚ) :
    ∀ o1 ∈ (s.RemoveExpiredOrders now).2.2, o1.wastedAt = some now := by
  intro o1 h
  simp only [Shelf.RemoveExpiredOrders, List.mem_map] at h
  obtain ⟨kv, _, h2⟩ := h
  rw [← h2]

/-- With unique keys, a sweep's surviving residents are exactly the prior
residents that were not expired at the sweep instant. -/
theorem sweep_mapGet (s : Shelf) (now : ℚ)
    (hnd : (s.orders.map Prod.fst).Nodup) (k : String) :
    mapGet (s.RemoveExpiredOrders now).2.1.orders k =
      match mapGet s.orders k with
      | none => none
      | some o => if o.IsExpired now then none else some o := by
  rw [sweep_orders, mapGet_filter _ _ _ hnd]
  cases h : mapGet s.orders k with
  | none => rfl
  | some o => cases he : o.IsExpired now <;> simp [he]

/-- Claim C6: one manager sweep removes exactly the expired residents
(per-key characterisation on each shelf, assuming unique keys), leaves
non-expired residents in place, stamps every removed order's wasted
timestamp with the sweep instant, returns exactly the number removed
(the occupancy drop), and adds that number to total-expired while the
other aggregate counters stay unchanged. -/
theorem C6_removeExpired_sweep (sm : ShelfManager) (now : ℚ)
    (h1 : (sm.hotShelf.orders.map Prod.fst).Nodup)
    (h2 : (sm.coldShelf.orders.map Prod.fst).Nodup)
    (h3 : (sm.frozenShelf.orders.map Prod.fst).Nodup)
    (h4 : (sm.overflowShelf.orders.map Prod.fst).Nodup) :
    (sm.RemoveExpiredOrders now).1 +
      (sm.RemoveExpiredOrders now).2.1.occupancy = sm.occupancy ∧
    (sm.RemoveExpiredOrders now).2.1.totalOrdersExpired =
      sm.totalOrdersExpired + (sm.RemoveExpiredOrders now).1 ∧
    (sm.RemoveExpiredOrders now).2.1.totalOrdersReceived =
      sm.totalOrdersReceived ∧
    (sm.RemoveExpiredOrders now).2.1.totalOrdersDelivered =
      sm.totalOrdersDelivered ∧
    (sm.RemoveExpiredOrders now).2.1.totalOrdersWasted =
      sm.totalOrdersWasted ∧
    (∀ k, mapGet (sm.RemoveExpiredOrders now).2.1.hotShelf.orders k =
      match mapGet sm.hotShelf.orders k with
      | none => none
      | some o => if o.IsExpired now then none else some o) ∧
    (∀ k, mapGet (sm.RemoveExpiredOrders now).2.1.coldShelf.orders k =
      match mapGet sm.coldShelf.orders k with
      | none => none
      | some o => if o.IsExpired now then none else some o) ∧
    (∀ k, mapGet (sm.RemoveExpiredOrders now).2.1.frozenShelf.orders k =
      match mapGet sm.frozenShelf.orders k with
      | none => none
      | some o => if o.IsExpired now then none else some o) ∧
    (∀ k, mapGet (sm.RemoveExpiredOrders now).2.1.overflowShelf.orders k =
      match mapGet sm.overflowShelf.orders k with
      | none => none
      | some o => if o.IsExpired now then none else some o) ∧
    (sm.RemoveExpiredOrders now).2.2.length =
      (sm.RemoveExpiredOrders now).1 ∧
    (∀ o1 ∈ (sm.RemoveExpiredOrders now).2.2, o1.wastedAt = some now) := by
  have hh := sweep_count sm.hotShelf now
  have hcd := sweep_count sm.coldShelf now
  have hf := sweep_count sm.frozenShelf now
  have ho := sweep_count sm.overflowShelf now
  refine ⟨?_, rfl, rfl, rfl, rfl, ?_, ?_, ?_, ?_, ?_, ?_⟩
  · show (sm.hotShelf.RemoveExpiredOrders now).1 +
        (sm.coldShelf.RemoveExpiredOrders now).1 +
        (sm.frozenShelf.RemoveExpiredOrders now).1 +
        (sm.overflowShelf.RemoveExpiredOrders now).1 +
        ((sm.hotShelf.RemoveExpiredOrders now).2.1.orders.length +
         (sm.coldShelf.RemoveExpiredOrders now).2.1.orders.length +
         (sm.frozenShelf.RemoveExpiredOrders now).2.1.orders.length +
         (sm.overflowShelf.RemoveExpiredOrders now).2.1.orders.length) =
        sm.occupancy
    unfold ShelfManager.occupancy
    omega
  · exact sweep_mapGet sm.hotShelf now h1
  · exact sweep_mapGet sm.coldShelf now h2
  · exact sweep_mapGet sm.frozenShelf now h3
  · exact sweep_mapGet sm.overflowShelf now h4
  · show ((sm.hotShelf.RemoveExpiredOrders now).2.2 ++
        (sm.coldShelf.RemoveExpiredOrders now).2.2 ++
        (sm.frozenShelf.RemoveExpiredOrders now).2.2 ++
        (sm.overflowShelf.RemoveExpiredOrders now).2.2).length = _
    simp only [List.length_append]
    rw [sweep_removed_length, sweep_removed_length, sweep_removed_length,
      sweep_removed_length]
    rfl
  · intro o1 hmem
    show o1.wastedAt = some now
    have : o1 ∈ (sm.hotShelf.RemoveExpiredOrders now).2.2 ++
        (sm.coldShelf.RemoveExpiredOrders now).2.2 ++
        (sm.frozenShelf.RemoveExpiredOrders now).2.2 ++
        (sm.overflowShelf.RemoveExpiredOrders now).2.2 := hmem
    simp only [List.mem_append] at this
    rcases this with ((ha | hb) | hc) | hd
    · exact sweep_removed_wasted sm.hotShelf now o1 ha
    · exact sweep_removed_wasted sm.coldShelf now o1 hb
    · exact sweep_removed_wasted sm.frozenShelf now o1 hc
    · exact sweep_removed_wasted sm.overflowShelf now o1 hd

/-- Witness for C6 on the concrete sweep fixture: the expired order "e"
and the fresh order "f" on the hot shelf at sweep time 10. -/
theorem C6_witness :
    (sweepFixture.RemoveExpiredOrders 10).1 +
      (sweepFixture.RemoveExpiredOrders 10).2.1.occupancy =
      sweepFixture.occupancy ∧
    (sweepFixture.RemoveExpiredOrders 10).2.1.totalOrdersExpired =
      sweepFixture.totalOrdersExpired +
        (sweepFixture.RemoveExpiredOrders 10).1 ∧
    (∀ o1 ∈ (sweepFixture.RemoveExpiredOrders 10).2.2,
      o1.wastedAt = some 10) := by
  have h := C6_removeExpired_sweep sweepFixture 10
    (by simp [sweepFixture, NewShelfManager, NewShelf])
    (by simp [sweepFixture, NewShelfManager, NewShelf])
    (by simp [sweepFixture, NewShelfManager, NewShelf])
    (by simp [sweepFixture, NewShelfManager, NewShelf])
  exact ⟨h.1, h.2.1, h.2.2.2.2.2.2.2.2.2.2⟩

/-- Decompose non-residency into the four per-shelf absences. -/
theorem residentAnywhere_false (sm : ShelfManager) (k : String)
    (h : residentAnywhere sm k = false) :
    mapGet sm.hotShelf.orders k = none ∧
    mapGet sm.coldShelf.orders k = none ∧
    mapGet sm.frozenShelf.orders k = none ∧
    mapGet sm.overflowShelf.orders k = none := by
  simp only [residentAnywhere, Bool.or_eq_false_iff] at h
  obtain ⟨⟨⟨a, b⟩, c⟩, d⟩ := h
  refine ⟨?_, ?_, ?_, ?_⟩
  · cases hx : mapGet sm.hotShelf.orders k
    · rfl
    · rw [hx] at a
      simp at a
  · cases hx : mapGet sm.coldShelf.orders k
    · rfl
    · rw [hx] at b
      simp at b
  · cases hx : mapGet sm.frozenShelf.orders k
    · rfl
    · rw [hx] at c
      simp at c
  · cases hx : mapGet sm.overflowShelf.orders k
    · rfl
    · rw [hx] at d
      simp at d

/-- A failed `AddOrder` leaves the shelf and order untouched. -/
theorem addOrder_false_state (s : Shelf) (o : Order) (now : ℚ)
    (h : (s.AddOrder o now).1 = false) :
    (s.AddOrder o now).2.1 = s ∧ (s.AddOrder o now).2.2 = o := by
  by_cases hfull : (s.orders.length : ℤ) ≥ s.capacity
  · rw [addOrder_full s o now hfull]
    exact ⟨rfl, rfl⟩
  · obtain ⟨hb, _, _⟩ := addOrder_not_full s o now hfull
    rw [hb] at h
    exact absurd h (by simp)

/-- A successful `AddOrder` on a fresh id grows the shelf by one order
and stores the stamped order. -/
theorem addOrder_true_state (s : Shelf) (o : Order) (now : ℚ)
    (h : (s.AddOrder o now).1 = true)
    (hf : mapGet s.orders o.id = none) :
    (s.AddOrder o now).2.1.orders.length = s.orders.length + 1 ∧
    (s.AddOrder o now).2.1.orders =
      mapInsert s.orders o.id (stampOrder s o now) ∧
    (s.AddOrder o now).2.2 = stampOrder s o now := by
  by_cases hfull : (s.orders.length : ℤ) ≥ s.capacity
  · rw [addOrder_full s o now hfull] at h
    exact absurd h (by simp)
  · obtain ⟨_, ho, ho2⟩ := addOrder_not_full s o now hfull
    rw [stampOrder_id] at ho
    refine ⟨?_, ho, ho2⟩
    rw [ho, length_mapInsert_of_none _ _ _ hf]

/-- Bumping the received counter does not change any shelf. -/
theorem getSlot_receivedBump (sm : ShelfManager) (n : ℕ)
    (slot : ShelfSlot) :
    ShelfManager.getSlot { sm with totalOrdersReceived := n } slot =
      sm.getSlot slot := by
  cases slot <;> rfl

/-- Occupancy accounting for replacing one slot's shelf. -/
theorem occupancy_setSlot (sm : ShelfManager) (slot : ShelfSlot)
    (s1 : Shelf) :
    (sm.setSlot slot s1).occupancy + (sm.getSlot slot).orders.length =
      sm.occupancy + s1.orders.length := by
  cases slot <;>
    simp [ShelfManager.setSlot, ShelfManager.getSlot,
      ShelfManager.occupancy] <;>
    omega

/-- Replacing a slot's shelf leaves every aggregate counter unchanged. -/
theorem setSlot_counters (sm : ShelfManager) (slot : ShelfSlot)
    (s1 : Shelf) :
    (sm.setSlot slot s1).totalOrdersReceived = sm.totalOrdersReceived ∧
    (sm.setSlot slot s1).totalOrdersDelivered = sm.totalOrdersDelivered ∧
    (sm.setSlot slot s1).totalOrdersExpired = sm.totalOrdersExpired ∧
    (sm.setSlot slot s1).totalOrdersWasted = sm.totalOrdersWasted := by
  cases slot <;> exact ⟨rfl, rfl, rfl, rfl⟩

/-- `PlaceOrder` state when the temperature class is unrecognized. -/
theorem placeOrder_state_unknown (sm : ShelfManager) (o : Order) (now : ℚ)
    (h : GetShelfForTemperature o.temp = none) :
    (sm.PlaceOrder o now).2.1 =
      { sm with
        totalOrdersReceived := sm.totalOrdersReceived + 1,
        totalOrdersWasted := sm.totalOrdersWasted + 1 } := by
  simp [ShelfManager.PlaceOrder, h]

/-- `PlaceOrder` state when the primary shelf accepts the order. -/
theorem placeOrder_state_primary (sm : ShelfManager) (o : Order) (now : ℚ)
    (slot : ShelfSlot) (hs : GetShelfForTemperature o.temp = some slot)
    (hr : ((sm.getSlot slot).AddOrder o now).1 = true) :
    (sm.PlaceOrder o now).2.1 =
      ShelfManager.setSlot
        { sm with totalOrdersReceived := sm.totalOrdersReceived + 1 }
        slot ((sm.getSlot slot).AddOrder o now).2.1 := by
  cases slot <;>
    simp only [ShelfManager.getSlot] at hr <;>
    simp [ShelfManager.PlaceOrder, hs, ShelfManager.getSlot,
      ShelfManager.setSlot, hr]

/-- `PlaceOrder` state when the primary shelf rejects the order and the
overflow shelf accepts it: the overflow shelf gains the stamped order,
then the manager's unconditional timestamp write updates the stored
entry. -/
theorem placeOrder_state_overflow (sm : ShelfManager) (o : Order)
    (now : ℚ) (slot : ShelfSlot)
    (hs : GetShelfForTemperature o.temp = some slot)
    (hr : ((sm.getSlot slot).AddOrder o now).1 = false)
    (hr2 : (sm.overflowShelf.AddOrder o now).1 = true) :
    (sm.PlaceOrder o now).2.1 =
      { sm with
        totalOrdersReceived := sm.totalOrdersReceived + 1,
        overflowShelf := { (sm.overflowShelf.AddOrder o now).2.1 with
          orders := mapInsert (sm.overflowShelf.AddOrder o now).2.1.orders
            ({ (sm.overflowShelf.AddOrder o now).2.2 with
                placedOnOverflow := some now }).id
            { (sm.overflowShelf.AddOrder o now).2.2 with
                placedOnOverflow := some now } } } := by
  cases slot <;>
    simp only [ShelfManager.getSlot] at hr <;>
    simp [ShelfManager.PlaceOrder, hs, ShelfManager.getSlot, hr, hr2]

/-- `PlaceOrder` state when both the primary and the overflow shelf
reject the order. -/
theorem placeOrder_state_wasted (sm : ShelfManager) (o : Order) (now : ℚ)
    (slot : ShelfSlot) (hs : GetShelfForTemperature o.temp = some slot)
    (hr : ((sm.getSlot slot).AddOrder o now).1 = false)
    (hr2 : (sm.overflowShelf.AddOrder o now).1 = false) :
    (sm.PlaceOrder o now).2.1 =
      { sm with
        totalOrdersReceived := sm.totalOrdersReceived + 1,
        totalOrdersWasted := sm.totalOrdersWasted + 1 } := by
  cases slot <;>
    simp only [ShelfManager.getSlot] at hr <;>
    simp [ShelfManager.PlaceOrder, hs, ShelfManager.getSlot, hr, hr2]

/-- One `PlaceOrder` preserves the reconciliation equation, provided the
placed order's id is fresh. -/
theorem reconciled_place (sm : ShelfManager) (o : Order) (now : ℚ)
    (hinv : Reconciled sm) (hok : residentAnywhere sm o.id = false) :
    Reconciled (sm.PlaceOrder o now).2.1 := by
  obtain ⟨hh, hcd, hfz, hov⟩ := residentAnywhere_false sm o.id hok
  cases hslot : GetShelfForTemperature o.temp with
  | none =>
      rw [placeOrder_state_unknown sm o now hslot]
      simp only [Reconciled, ShelfManager.occupancy] at hinv ⊢
      omega
  | some slot =>
      have hfresh1 : mapGet (sm.getSlot slot).orders o.id = none := by
        cases slot
        · exact hh
        · exact hcd
        · exact hfz
      by_cases hr : ((sm.getSlot slot).AddOrder o now).1 = true
      · rw [placeOrder_state_primary sm o now slot hslot hr]
        obtain ⟨hlen, _, _⟩ := addOrder_true_state _ o now hr hfresh1
        cases slot <;>
          simp only [Reconciled, ShelfManager.setSlot, ShelfManager.getSlot,
            ShelfManager.occupancy] at hlen hinv ⊢ <;>
          omega
      · have hrf : ((sm.getSlot slot).AddOrder o now).1 = false := by
          cases hb : ((sm.getSlot slot).AddOrder o now).1
          · rfl
          · exact absurd hb hr
        by_cases hr2 : (sm.overflowShelf.AddOrder o now).1 = true
        · rw [placeOrder_state_overflow sm o now slot hslot hrf hr2]
          obtain ⟨hlen, hord, hsnd⟩ :=
            addOrder_true_state sm.overflowShelf o now hr2 hov
          have hkey : ({ (sm.overflowShelf.AddOrder o now).2.2 with
              placedOnOverflow := some now }).id = o.id := by
            show (sm.overflowShelf.AddOrder o now).2.2.id = o.id
            rw [hsnd, stampOrder_id]
          have hpresent : (mapGet
              (sm.overflowShelf.AddOrder o now).2.1.orders o.id).isSome =
              true := by
            rw [hord, mapGet_mapInsert]
            simp
          have hlen2 : (mapInsert
              (sm.overflowShelf.AddOrder o now).2.1.orders
              ({ (sm.overflowShelf.AddOrder o now).2.2 with
                  placedOnOverflow := some now }).id
              { (sm.overflowShelf.AddOrder o now).2.2 with
                  placedOnOverflow := some now }).length =
              (sm.overflowShelf.AddOrder o now).2.1.orders.length := by
            rw [hkey]
            exact length_mapInsert_of_some _ _ _ hpresent
          simp only [Reconciled, ShelfManager.occupancy] at hinv ⊢
          rw [hlen2]
          omega
        · have hrf2 : (sm.overflowShelf.AddOrder o now).1 = false := by
            cases hb : (sm.overflowShelf.AddOrder o now).1
            · rfl
            · exact absurd hb hr2
          rw [placeOrder_state_wasted sm o now slot hslot hrf hrf2]
          simp only [Reconciled, ShelfManager.occupancy] at hinv ⊢
          omega

/-- One `DeliverOrder` preserves the reconciliation equation. -/
theorem reconciled_deliver (sm : ShelfManager) (orderID : String)
    (now : ℚ) (hinv : Reconciled sm) :
    Reconciled (sm.DeliverOrder orderID now).2.1 := by
  cases hh : mapGet sm.hotShelf.orders orderID with
  | some o =>
      rw [deliverOrder_hot sm orderID now o hh]
      have hlen := length_mapErase_of_some sm.hotShelf.orders orderID
        (by simp [hh])
      simp only [Reconciled, ShelfManager.occupancy] at hinv ⊢
      omega
  | none =>
      cases hc : mapGet sm.coldShelf.orders orderID with
      | some o =>
          rw [deliverOrder_cold sm orderID now o hh hc]
          have hlen := length_mapErase_of_some sm.coldShelf.orders orderID
            (by simp [hc])
          simp only [Reconciled, ShelfManager.occupancy] at hinv ⊢
          omega
      | none =>
          cases hf : mapGet sm.frozenShelf.orders orderID with
          | some o =>
              rw [deliverOrder_frozen sm orderID now o hh hc hf]
              have hlen := length_mapErase_of_some sm.frozenShelf.orders
                orderID (by simp [hf])
              simp only [Reconciled, ShelfManager.occupancy] at hinv ⊢
              omega
          | none =>
              cases ho : mapGet sm.overflowShelf.orders orderID with
              | some o =>
                  rw [deliverOrder_overflow sm orderID now o hh hc hf ho]
                  have hlen := length_mapErase_of_some
                    sm.overflowShelf.orders orderID (by simp [ho])
                  simp only [Reconciled, ShelfManager.occupancy]
                    at hinv ⊢
                  omega
              | none =>
                  rw [deliverOrder_not_found sm orderID now hh hc hf ho]
                  exact hinv

/-- One expiry sweep preserves the reconciliation equation. -/
theorem reconciled_sweep (sm : ShelfManager) (now : ℚ)
    (hinv : Reconciled sm) :
    Reconciled (sm.RemoveExpiredOrders now).2.1 := by
  have h1 := sweep_count sm.hotShelf now
  have h2 := sweep_count sm.coldShelf now
  have h3 := sweep_count sm.frozenShelf now
  have h4 := sweep_count sm.overflowShelf now
  simp only [Reconciled, ShelfManager.occupancy,
    ShelfManager.RemoveExpiredOrders] at hinv ⊢
  omega

/-- Any single admissible manager operation preserves reconciliation. -/
theorem reconciled_step (sm : ShelfManager) (op : MgrOp)
    (hinv : Reconciled sm) (hok : FreshOk sm op) :
    Reconciled (runOp sm op) := by
  cases op with
  | place o now => exact reconciled_place sm o now hinv hok
  | deliver orderID now => exact reconciled_deliver sm orderID now hinv
  | sweep now => exact reconciled_sweep sm now hinv

/-- Claim C3: starting from a freshly constructed manager, after every
sequence of completed manager operations (placements of fresh-id orders,
deliveries, expiry sweeps) the reconciliation equation holds:
total received = total delivered + total wasted + total expired + the sum
of the four shelves' current occupancies. -/
theorem C3_reconciliation_invariant (hotCapacity coldCapacity
    frozenCapacity overflowCapacity : ℤ) (ops : List MgrOp)
    (hadm : Admissible (NewShelfManager hotCapacity coldCapacity
      frozenCapacity overflowCapacity) ops) :
    Reconciled (runOps (NewShelfManager hotCapacity coldCapacity
      frozenCapacity overflowCapacity) ops) := by
  have hrun : ∀ (l : List MgrOp) (sm : ShelfManager),
      Reconciled sm → Admissible sm l → Reconciled (runOps sm l) := by
    intro l
    induction l with
    | nil =>
        intro sm h _
        exact h
    | cons op rest ih =>
        intro sm h hadm1
        exact ih (runOp sm op) (reconciled_step sm op h hadm1.1) hadm1.2
  exact hrun ops _ rfl hadm

/-- Witness for C3: a concrete run on a manager with capacities 1/1/1/1 —
place "a" (goes to hot), place "b" (hot full, goes to overflow), deliver
"a", then sweep; the reconciliation equation holds at the end. -/
theorem C3_witness :
    Reconciled (runOps (NewShelfManager 1 1 1 1)
      [MgrOp.place (Order.mk "a" "Burger" "hot" 300 (1/2) 0 none none ""
          none none) 0,
       MgrOp.place (Order.mk "b" "Pasta" "hot" 300 (1/2) 0 none none ""
          none none) 1,
       MgrOp.deliver "a" 2,
       MgrOp.sweep 3]) := by
  refine C3_reconciliation_invariant 1 1 1 1 _ ⟨rfl, rfl, trivial, trivial, trivial⟩
